import Mathlib

/-!
# Verification of the docstore-api record store and service layer

A shallow embedding of `src/models/document.go` (the `DocumentStore` CRUD
operations over an in-memory `map[string]Document`) and of the pass-through
`documentService` from `services/document_service.go`.

The Go map is embedded as an association list with distinct keys; the
well-formedness predicate `DocumentStore.WF` states that the keys are
pairwise distinct, which every reachable Go map state satisfies.  Each Go
method that mutates the receiver and returns an `error` is embedded as a
function from the store to the pair of the new store and an optional error
string; the error strings are the exact ones built by `errors.New` in the
source.  The `sync.RWMutex` is not part of the state: it serializes the
operations, so the concurrent behaviour of the store is the set of
sequential executions modelled here.
-/

namespace Docstore

/-- `type Document struct { ID, Name, Description string }` from
`src/models/document.go`. -/
structure Document where
  ID : String
  Name : String
  Description : String
deriving DecidableEq, Repr

/-- The message of `errors.New("document already exists")`. -/
def errAlreadyExists : String := "document already exists"

/-- The message of `errors.New("document not found")`. -/
def errNotFound : String := "document not found"

/-- Go map read `s.documents[id]` (comma-ok form): the value bound to the
first occurrence of the key, if any. -/
def lookupKey : List (String × Document) → String → Option Document
  | [], _ => none
  | (k, v) :: rest, id => if k = id then some v else lookupKey rest id

/-- Go map write `s.documents[id] = doc`: replace the binding if the key is
present, otherwise add it. -/
def setKey : List (String × Document) → String → Document → List (String × Document)
  | [], k, v => [(k, v)]
  | (k', v') :: rest, k, v =>
    if k' = k then (k, v) :: rest else (k', v') :: setKey rest k v

/-- Go built-in `delete(s.documents, id)`: remove every binding of the key
(at most one in a well-formed map). -/
def eraseKey : List (String × Document) → String → List (String × Document)
  | [], _ => []
  | (k', v') :: rest, k =>
    if k' = k then eraseKey rest k else (k', v') :: eraseKey rest k

/-- `type DocumentStore struct { mu sync.RWMutex; documents map[string]Document }`.
The mutex is not state; the map is the association list `documents`. -/
structure DocumentStore where
  documents : List (String × Document)
deriving DecidableEq, Repr

/-- `func NewDocumentStore() *DocumentStore`: empty map. -/
def NewDocumentStore : DocumentStore := ⟨[]⟩

/-- The keys of the store's map are pairwise distinct — the invariant a Go
map enforces by construction. -/
def DocumentStore.WF (s : DocumentStore) : Prop :=
  (s.documents.map Prod.fst).Nodup

instance (s : DocumentStore) : Decidable s.WF := by
  unfold DocumentStore.WF; infer_instance

/-- `func (s *DocumentStore) Create(doc Document) error`. -/
def DocumentStore.Create (s : DocumentStore) (doc : Document) :
    DocumentStore × Option String :=
  match lookupKey s.documents doc.ID with
  | some _ => (s, some errAlreadyExists)
  | none => (⟨setKey s.documents doc.ID doc⟩, none)

/-- `func (s *DocumentStore) Get(id string) (Document, error)`; on the error
path Go returns the zero value `Document{}`. -/
def DocumentStore.Get (s : DocumentStore) (id : String) :
    Document × Option String :=
  match lookupKey s.documents id with
  | none => (⟨"", "", ""⟩, some errNotFound)
  | some doc => (doc, none)

/-- `func (s *DocumentStore) Delete(id string) error`. -/
def DocumentStore.Delete (s : DocumentStore) (id : String) :
    DocumentStore × Option String :=
  match lookupKey s.documents id with
  | none => (s, some errNotFound)
  | some _ => (⟨eraseKey s.documents id⟩, none)

/-- `func (s *DocumentStore) List() []Document`: the values of the map, in
iteration order (no order is guaranteed). -/
def DocumentStore.ListDocs (s : DocumentStore) : List Document :=
  s.documents.map Prod.snd

/-- `func (s *DocumentStore) Update(id string, doc Document) error`; the
stored record's ID is forced to the path parameter (`doc.ID = id`). -/
def DocumentStore.Update (s : DocumentStore) (id : String) (doc : Document) :
    DocumentStore × Option String :=
  match lookupKey s.documents id with
  | none => (s, some errNotFound)
  | some _ => (⟨setKey s.documents id { doc with ID := id }⟩, none)

/-- A runtime value of Go's `interface{}` as it can arrive in the
`map[string]interface{}` of `PartialUpdate` (decoded JSON): a string, a
number, a boolean or null.  Only the `str` case passes the type assertion
`.(string)` in the source. -/
inductive GoValue where
  | str : String → GoValue
  | num : Int → GoValue
  | bool : Bool → GoValue
  | null : GoValue
deriving DecidableEq, Repr

/-- Go map read `updates["name"]` on the `map[string]interface{}` argument
of `PartialUpdate`. -/
def lookupVal : List (String × GoValue) → String → Option GoValue
  | [], _ => none
  | (k, v) :: rest, key => if k = key then some v else lookupVal rest key

/-- The merge step of `PartialUpdate` (lines 92–101 of the source): look up
`"name"` and `"description"` in the updates map and overwrite the
corresponding field only when the value passes the `.(string)` type
assertion. -/
def applyUpdates (doc : Document) (updates : List (String × GoValue)) :
    Document :=
  let doc1 : Document :=
    match lookupVal updates "name" with
    | some (GoValue.str nameStr) => { doc with Name := nameStr }
    | _ => doc
  match lookupVal updates "description" with
  | some (GoValue.str descStr) => { doc1 with Description := descStr }
  | _ => doc1

/-- `func (s *DocumentStore) PartialUpdate(id string, updates map[string]interface{}) error`:
merge the recognized string-typed fields into the existing record and write
it back. -/
def DocumentStore.PartialUpdate (s : DocumentStore) (id : String)
    (updates : List (String × GoValue)) : DocumentStore × Option String :=
  match lookupKey s.documents id with
  | none => (s, some errNotFound)
  | some doc => (⟨setKey s.documents id (applyUpdates doc updates)⟩, none)

/-- `type documentService struct { store *models.DocumentStore }` from
`services/document_service.go`. -/
structure documentService where
  store : DocumentStore

/-- `func (s *documentService) CreateDocument(doc models.Document) error`. -/
def documentService.CreateDocument (svc : documentService) (doc : Document) :
    DocumentStore × Option String :=
  svc.store.Create doc

/-- `func (s *documentService) GetDocument(id string) (models.Document, error)`. -/
def documentService.GetDocument (svc : documentService) (id : String) :
    Document × Option String :=
  svc.store.Get id

/-- `func (s *documentService) ListDocuments() []models.Document`. -/
def documentService.ListDocuments (svc : documentService) : List Document :=
  svc.store.ListDocs

/-- `func (s *documentService) DeleteDocument(id string) error`. -/
def documentService.DeleteDocument (svc : documentService) (id : String) :
    DocumentStore × Option String :=
  svc.store.Delete id

/-- `func (s *documentService) UpdateDocument(id string, doc models.Document) error`. -/
def documentService.UpdateDocument (svc : documentService) (id : String)
    (doc : Document) : DocumentStore × Option String :=
  svc.store.Update id doc

/-- `func (s *documentService) PartialUpdateDocument(id string, updates map[string]interface{}) error`. -/
def documentService.PartialUpdateDocument (svc : documentService) (id : String)
    (updates : List (String × GoValue)) : DocumentStore × Option String :=
  svc.store.PartialUpdate id updates

/-! ## Sequential executions

The `sync.RWMutex` makes every mutating call hold the write lock for its
whole body, so any set of concurrent calls is observationally equal to
running them one after another in some order.  `Op` is one store call;
`runOps` runs a sequence of calls; the two counters tally the calls that
returned no error.  `runCreates` runs a batch of `Create` calls (the
serialization of N concurrent creates, in an arbitrary order given by the
list) and records each call's result. -/

inductive Op where
  | createOp : Document → Op
  | getOp : String → Op
  | updateOp : String → Document → Op
  | partialUpdateOp : String → List (String × GoValue) → Op
  | deleteOp : String → Op
  | listOp : Op

/-- The store state after one call. -/
def applyOp (s : DocumentStore) : Op → DocumentStore
  | .createOp d => (s.Create d).1
  | .getOp _ => s
  | .updateOp id d => (s.Update id d).1
  | .partialUpdateOp id u => (s.PartialUpdate id u).1
  | .deleteOp id => (s.Delete id).1
  | .listOp => s

/-- 1 when the call is a `Create` that returns no error, else 0. -/
def opCreateSucc (s : DocumentStore) : Op → Nat
  | .createOp d => if (s.Create d).2 = none then 1 else 0
  | _ => 0

/-- 1 when the call is a `Delete` that returns no error, else 0. -/
def opDeleteSucc (s : DocumentStore) : Op → Nat
  | .deleteOp id => if (s.Delete id).2 = none then 1 else 0
  | _ => 0

def runOps (s : DocumentStore) : List Op → DocumentStore
  | [] => s
  | op :: rest => runOps (applyOp s op) rest

def countSuccCreates (s : DocumentStore) : List Op → Nat
  | [] => 0
  | op :: rest => opCreateSucc s op + countSuccCreates (applyOp s op) rest

def countSuccDeletes (s : DocumentStore) : List Op → Nat
  | [] => 0
  | op :: rest => opDeleteSucc s op + countSuccDeletes (applyOp s op) rest

def runCreates (s : DocumentStore) :
    List Document → DocumentStore × List (Option String)
  | [] => (s, [])
  | d :: rest =>
    let r := s.Create d
    let rest2 := runCreates r.1 rest
    (rest2.1, r.2 :: rest2.2)

/-! ## Concrete records, stores and traces used by the witnesses -/

def dA : Document := ⟨"1", "A", "x"⟩

def dB : Document := ⟨"1", "B", "y"⟩

def dC : Document := ⟨"2", "C", "z"⟩

def dEmpty : Document := ⟨"", "E", "e"⟩

def store1 : DocumentStore := ⟨[("1", dA)]⟩

def upd1 : List (String × GoValue) :=
  [("name", GoValue.str "B"), ("id", GoValue.str "zzz"),
   ("junk", GoValue.num 3), ("description", GoValue.bool true)]

def uName : List (String × GoValue) := [("name", GoValue.str "B")]

def trace1 : List Op := [Op.createOp dC, Op.deleteOp "1", Op.createOp dB]

/-! ## Lemmas about the map primitives -/

theorem lookupKey_setKey (l : List (String × Document)) (k k' : String)
    (v : Document) :
    lookupKey (setKey l k v) k' = if k = k' then some v else lookupKey l k' := by
  induction l with
  | nil => simp [setKey, lookupKey]
  | cons p rest ih =>
    obtain ⟨pk, pv⟩ := p
    by_cases h1 : pk = k
    · subst h1
      by_cases h2 : pk = k' <;> simp [setKey, lookupKey, h2]
    · by_cases h2 : pk = k'
      · subst h2
        have hk : ¬ k = pk := fun h => h1 h.symm
        simp [setKey, lookupKey, h1, hk]
      · simp [setKey, lookupKey, h1, h2, ih]

theorem setKey_of_lookup_none (l : List (String × Document)) (k : String)
    (v : Document) (h : lookupKey l k = none) :
    setKey l k v = l ++ [(k, v)] := by
  induction l with
  | nil => simp [setKey]
  | cons p rest ih =>
    obtain ⟨pk, pv⟩ := p
    by_cases h1 : pk = k
    · simp [lookupKey, h1] at h
    · simp [lookupKey, h1] at h
      simp [setKey, h1, ih h]

theorem setKey_self (l : List (String × Document)) (k : String) (v : Document)
    (h : lookupKey l k = some v) : setKey l k v = l := by
  induction l with
  | nil => simp [lookupKey] at h
  | cons p rest ih =>
    obtain ⟨pk, pv⟩ := p
    by_cases h1 : pk = k
    · subst h1
      simp [lookupKey] at h
      simp [setKey, h]
    · simp [lookupKey, h1] at h
      simp [setKey, h1, ih h]

theorem length_setKey_of_lookup_some (l : List (String × Document))
    (k : String) (v w : Document) (h : lookupKey l k = some w) :
    (setKey l k v).length = l.length := by
  induction l with
  | nil => simp [lookupKey] at h
  | cons p rest ih =>
    obtain ⟨pk, pv⟩ := p
    by_cases h1 : pk = k
    · simp [setKey, h1]
    · simp [lookupKey, h1] at h
      simp [setKey, h1, ih h]

theorem mem_keys_of_lookup_some (l : List (String × Document)) (k : String)
    (v : Document) (h : lookupKey l k = some v) : k ∈ l.map Prod.fst := by
  induction l with
  | nil => simp [lookupKey] at h
  | cons p rest ih =>
    obtain ⟨pk, pv⟩ := p
    by_cases h1 : pk = k
    · simp [h1]
    · simp [lookupKey, h1] at h
      simp [ih h]

theorem lookup_none_of_not_mem_keys (l : List (String × Document)) (k : String)
    (h : k ∉ l.map Prod.fst) : lookupKey l k = none := by
  induction l with
  | nil => simp [lookupKey]
  | cons p rest ih =>
    obtain ⟨pk, pv⟩ := p
    simp only [List.map_cons, List.mem_cons, not_or] at h
    have hpk : ¬ pk = k := fun hc => h.1 hc.symm
    simp [lookupKey, hpk, ih h.2]

theorem eraseKey_of_not_mem_keys (l : List (String × Document)) (k : String)
    (h : k ∉ l.map Prod.fst) : eraseKey l k = l := by
  induction l with
  | nil => simp [eraseKey]
  | cons p rest ih =>
    obtain ⟨pk, pv⟩ := p
    simp only [List.map_cons, List.mem_cons, not_or] at h
    have hpk : ¬ pk = k := fun hc => h.1 hc.symm
    simp [eraseKey, hpk, ih h.2]

theorem lookupKey_eraseKey_self (l : List (String × Document)) (k : String) :
    lookupKey (eraseKey l k) k = none := by
  induction l with
  | nil => simp [eraseKey, lookupKey]
  | cons p rest ih =>
    obtain ⟨pk, pv⟩ := p
    by_cases h1 : pk = k
    · simp [eraseKey, h1, ih]
    · simp [eraseKey, lookupKey, h1, ih]

theorem lookupKey_eraseKey_ne (l : List (String × Document)) (k k' : String)
    (h : k ≠ k') : lookupKey (eraseKey l k) k' = lookupKey l k' := by
  induction l with
  | nil => simp [eraseKey]
  | cons p rest ih =>
    obtain ⟨pk, pv⟩ := p
    by_cases h1 : pk = k
    · subst h1
      have : ¬ pk = k' := fun hc => h hc
      simp [eraseKey, lookupKey, this, ih]
    · simp [eraseKey, lookupKey, h1, ih]

theorem length_eraseKey_of_nodup (l : List (String × Document)) (k : String)
    (v : Document) (hnd : (l.map Prod.fst).Nodup)
    (h : lookupKey l k = some v) :
    (eraseKey l k).length + 1 = l.length := by
  induction l with
  | nil => simp [lookupKey] at h
  | cons p rest ih =>
    obtain ⟨pk, pv⟩ := p
    simp only [List.map_cons, List.nodup_cons] at hnd
    by_cases h1 : pk = k
    · subst h1
      have : eraseKey rest pk = rest := eraseKey_of_not_mem_keys rest pk hnd.1
      simp [eraseKey, this]
    · simp [lookupKey, h1] at h
      simp [eraseKey, h1, ih hnd.2 h]

theorem keys_setKey_of_lookup_some (l : List (String × Document)) (k : String)
    (v w : Document) (h : lookupKey l k = some w) :
    (setKey l k v).map Prod.fst = l.map Prod.fst := by
  induction l with
  | nil => simp [lookupKey] at h
  | cons p rest ih =>
    obtain ⟨pk, pv⟩ := p
    by_cases h1 : pk = k
    · subst h1
      simp [setKey]
    · simp [lookupKey, h1] at h
      simp [setKey, h1, ih h]

theorem keys_eraseKey_sublist (l : List (String × Document)) (k : String) :
    ((eraseKey l k).map Prod.fst).Sublist (l.map Prod.fst) := by
  induction l with
  | nil => simp [eraseKey]
  | cons p rest ih =>
    obtain ⟨pk, pv⟩ := p
    by_cases h1 : pk = k
    · simp only [eraseKey, if_pos h1, List.map_cons]
      exact ih.trans (List.sublist_cons_self pk (rest.map Prod.fst))
    · simp only [eraseKey, if_neg h1, List.map_cons]
      exact ih.cons₂ pk

theorem not_mem_keys_of_lookup_none (l : List (String × Document)) (k : String)
    (h : lookupKey l k = none) : k ∉ l.map Prod.fst := by
  induction l with
  | nil => simp
  | cons p rest ih =>
    obtain ⟨pk, pv⟩ := p
    by_cases h1 : pk = k
    · simp [lookupKey, h1] at h
    · simp [lookupKey, h1] at h
      simp only [List.map_cons, List.mem_cons, not_or]
      exact ⟨fun hc => h1 hc.symm, ih h⟩

theorem nodup_keys_setKey (l : List (String × Document)) (k : String)
    (v : Document) (hnd : (l.map Prod.fst).Nodup) :
    ((setKey l k v).map Prod.fst).Nodup := by
  cases hl : lookupKey l k with
  | some w => rw [keys_setKey_of_lookup_some l k v w hl]; exact hnd
  | none =>
    rw [setKey_of_lookup_none l k v hl, List.map_append]
    have hk := not_mem_keys_of_lookup_none l k hl
    refine List.Nodup.append hnd (by simp) ?_
    intro a ha hb
    simp only [List.map_cons, List.map_nil, List.mem_singleton] at hb
    subst hb
    exact hk ha

theorem nodup_keys_eraseKey (l : List (String × Document)) (k : String)
    (hnd : (l.map Prod.fst).Nodup) :
    ((eraseKey l k).map Prod.fst).Nodup :=
  hnd.sublist (keys_eraseKey_sublist l k)

theorem lookup_some_of_mem_values (l : List (String × Document))
    (hnd : (l.map Prod.fst).Nodup) (d : Document) (h : d ∈ l.map Prod.snd) :
    ∃ k, lookupKey l k = some d := by
  induction l with
  | nil => simp at h
  | cons p rest ih =>
    obtain ⟨pk, pv⟩ := p
    simp only [List.map_cons, List.nodup_cons] at hnd
    simp only [List.map_cons, List.mem_cons] at h
    rcases h with h | h
    · exact ⟨pk, by simp [lookupKey, h]⟩
    · obtain ⟨k, hk⟩ := ih hnd.2 h
      refine ⟨k, ?_⟩
      have hne : ¬ pk = k := fun hc => by
        subst hc
        exact hnd.1 (mem_keys_of_lookup_some rest pk d hk)
      simp [lookupKey, hne, hk]

theorem mem_values_of_lookup_some (l : List (String × Document)) (k : String)
    (d : Document) (h : lookupKey l k = some d) : d ∈ l.map Prod.snd := by
  induction l with
  | nil => simp [lookupKey] at h
  | cons p rest ih =>
    obtain ⟨pk, pv⟩ := p
    by_cases h1 : pk = k
    · simp [lookupKey, h1] at h
      simp [h]
    · simp [lookupKey, h1] at h
      simp [ih h]

/-! ## Claim theorems -/

/-- C1: `Create(r)` succeeds exactly when `r.ID` is absent from the map; on
success a subsequent `Get(r.ID)` returns `r` with no error; if the
identifier is already present, `Create` fails with the already-exists error
regardless of the new record's contents, the store is unchanged, and the
previously stored record for that identifier is still there. -/
theorem create_spec (s : DocumentStore) (r : Document) :
    ((s.Create r).2 = none ↔ lookupKey s.documents r.ID = none)
    ∧ (lookupKey s.documents r.ID = none →
        ((s.Create r).1.Get r.ID).1 = r ∧ ((s.Create r).1.Get r.ID).2 = none)
    ∧ (∀ d, lookupKey s.documents r.ID = some d →
        (s.Create r).2 = some errAlreadyExists ∧ (s.Create r).1 = s
        ∧ lookupKey (s.Create r).1.documents r.ID = some d) := by
  refine ⟨?_, ?_, ?_⟩
  · cases h : lookupKey s.documents r.ID <;>
      simp [DocumentStore.Create, h, errAlreadyExists]
  · intro h
    simp [DocumentStore.Create, h, DocumentStore.Get, lookupKey_setKey]
  · intro d h
    simp [DocumentStore.Create, h]

/-- Witness for `create_spec`: creating `dA` in the empty store succeeds and
`Get "1"` returns it, and creating `dB` (same identifier `"1"`) afterwards
fails and leaves `dA` stored. -/
theorem create_spec_witness :
    (((NewDocumentStore.Create dA).1.Get dA.ID).1 = dA
      ∧ ((NewDocumentStore.Create dA).1.Get dA.ID).2 = none)
    ∧ ((store1.Create dB).2 = some errAlreadyExists ∧ (store1.Create dB).1 = store1
      ∧ lookupKey (store1.Create dB).1.documents dB.ID = some dA) :=
  ⟨(create_spec NewDocumentStore dA).2.1 rfl,
   (create_spec store1 dB).2.2 dA rfl⟩

/-- C2: with `id` present, `Update(id, r)` succeeds for every `r` (even one
whose `ID` differs from `id`), stores `r` with its identifier forced to
`id`, so `Get(id)` returns a record whose identifier is `id`; with `id`
absent it fails with the not-found error and the store is unchanged. -/
theorem update_spec (s : DocumentStore) (id : String) (r : Document) :
    (lookupKey s.documents id = none → s.Update id r = (s, some errNotFound))
    ∧ (∀ d, lookupKey s.documents id = some d →
        (s.Update id r).2 = none
        ∧ ((s.Update id r).1.Get id).1 = { r with ID := id }
        ∧ ((s.Update id r).1.Get id).1.ID = id
        ∧ ((s.Update id r).1.Get id).2 = none) := by
  refine ⟨?_, ?_⟩
  · intro h
    simp [DocumentStore.Update, h]
  · intro d h
    simp [DocumentStore.Update, h, DocumentStore.Get, lookupKey_setKey]

/-- Witness for `update_spec`: updating key `"1"` of `store1` with `dC`
(whose own identifier is `"2"`) succeeds and pins the stored identifier to
`"1"`; updating the absent key `"9"` fails with not-found. -/
theorem update_spec_witness :
    ((store1.Update "1" dC).2 = none
      ∧ ((store1.Update "1" dC).1.Get "1").1 = { dC with ID := "1" }
      ∧ ((store1.Update "1" dC).1.Get "1").1.ID = "1")
    ∧ store1.Update "9" dC = (store1, some errNotFound) :=
  ⟨⟨((update_spec store1 "1" dC).2 dA rfl).1,
    ((update_spec store1 "1" dC).2 dA rfl).2.1,
    ((update_spec store1 "1" dC).2 dA rfl).2.2.1⟩,
   (update_spec store1 "9" dC).1 rfl⟩

/-- C5: `Delete(id)` succeeds exactly when `id` is present; on success a
subsequent `Get(id)` fails with the not-found error and the key is gone; if
`id` is absent, `Delete` fails with the not-found error and the store is
unchanged. -/
theorem delete_spec (s : DocumentStore) (id : String) :
    ((s.Delete id).2 = none ↔ lookupKey s.documents id ≠ none)
    ∧ (lookupKey s.documents id ≠ none →
        ((s.Delete id).1.Get id).2 = some errNotFound
        ∧ lookupKey (s.Delete id).1.documents id = none)
    ∧ (lookupKey s.documents id = none → s.Delete id = (s, some errNotFound)) := by
  refine ⟨?_, ?_, ?_⟩
  · cases h : lookupKey s.documents id <;>
      simp [DocumentStore.Delete, h, errNotFound]
  · intro h
    cases hl : lookupKey s.documents id with
    | none => exact absurd hl h
    | some d =>
      simp [DocumentStore.Delete, hl, DocumentStore.Get, lookupKey_eraseKey_self]
  · intro h
    simp [DocumentStore.Delete, h]

/-- Witness for `delete_spec`: deleting `"1"` from `store1` succeeds and
`Get "1"` then fails not-found; deleting the absent `"9"` fails not-found
and leaves the store unchanged. -/
theorem delete_spec_witness :
    (((store1.Delete "1").1.Get "1").2 = some errNotFound
      ∧ lookupKey (store1.Delete "1").1.documents "1" = none)
    ∧ store1.Delete "9" = (store1, some errNotFound) :=
  ⟨(delete_spec store1 "1").2.1 (by simp [store1, lookupKey]),
   (delete_spec store1 "9").2.2 rfl⟩

theorem applyUpdates_fields (d : Document) (u : List (String × GoValue)) :
    (applyUpdates d u).ID = d.ID
    ∧ (applyUpdates d u).Name = (match lookupVal u "name" with
        | some (GoValue.str n) => n
        | _ => d.Name)
    ∧ (applyUpdates d u).Description = (match lookupVal u "description" with
        | some (GoValue.str x) => x
        | _ => d.Description) := by
  cases hn : lookupVal u "name" with
  | none =>
    cases hd : lookupVal u "description" with
    | none => simp [applyUpdates, hn, hd]
    | some vd => cases vd <;> simp [applyUpdates, hn, hd]
  | some vn =>
    cases hd : lookupVal u "description" with
    | none => cases vn <;> simp [applyUpdates, hn, hd]
    | some vd => cases vn <;> cases vd <;> simp [applyUpdates, hn, hd]

/-- C3: with `id` present, `PartialUpdate(id, u)` always succeeds; the
stored `Name` is overwritten exactly when `u` binds `"name"` to a
string-typed value, likewise `Description` for `"description"`; non-string
values and all other keys (including `"id"`) cause no change; the stored
identifier is never modified.  With `id` absent it fails with the not-found
error and the store is unchanged. -/
theorem partialUpdate_spec (s : DocumentStore) (id : String)
    (u : List (String × GoValue)) :
    (lookupKey s.documents id = none →
        s.PartialUpdate id u = (s, some errNotFound))
    ∧ (∀ d, lookupKey s.documents id = some d →
        (s.PartialUpdate id u).2 = none
        ∧ ((s.PartialUpdate id u).1.Get id).2 = none
        ∧ ((s.PartialUpdate id u).1.Get id).1.ID = d.ID
        ∧ ((s.PartialUpdate id u).1.Get id).1.Name =
            (match lookupVal u "name" with
              | some (GoValue.str n) => n
              | _ => d.Name)
        ∧ ((s.PartialUpdate id u).1.Get id).1.Description =
            (match lookupVal u "description" with
              | some (GoValue.str x) => x
              | _ => d.Description)) := by
  refine ⟨fun h => by simp [DocumentStore.PartialUpdate, h], ?_⟩
  intro d h
  have hpu : s.PartialUpdate id u =
      (⟨setKey s.documents id (applyUpdates d u)⟩, none) := by
    simp [DocumentStore.PartialUpdate, h]
  obtain ⟨h1, h2, h3⟩ := applyUpdates_fields d u
  rw [hpu]
  refine ⟨rfl, ?_, ?_, ?_, ?_⟩ <;>
    simp [DocumentStore.Get, lookupKey_setKey, h1, h2, h3]

/-- Witness for `partialUpdate_spec`: on `store1` (holding `dA`),
a mixed update map sets `Name` to `"B"` while the string under `"id"`, the
number under `"junk"` and the boolean under `"description"` are all
ignored. -/
theorem partialUpdate_spec_witness :
    (store1.PartialUpdate "1" upd1).2 = none
    ∧ ((store1.PartialUpdate "1" upd1).1.Get "1").1.ID = "1"
    ∧ ((store1.PartialUpdate "1" upd1).1.Get "1").1.Name = "B"
    ∧ ((store1.PartialUpdate "1" upd1).1.Get "1").1.Description = "x" :=
  ⟨((partialUpdate_spec store1 "1" upd1).2 dA rfl).1,
   by rw [((partialUpdate_spec store1 "1" upd1).2 dA rfl).2.2.1]; rfl,
   by rw [((partialUpdate_spec store1 "1" upd1).2 dA rfl).2.2.2.1]; rfl,
   by rw [((partialUpdate_spec store1 "1" upd1).2 dA rfl).2.2.2.2]; rfl⟩

/-- C4: with `id` present, a `PartialUpdate` whose map does not bind
`"name"` leaves `Name` unchanged (so a description-only update preserves
it), one that does not bind `"description"` leaves `Description` unchanged
(so a name-only update preserves it), the identifier is always unchanged,
an empty map leaves the whole store unchanged, and every other key of the
store maps to the same record as before. -/
theorem partialUpdate_frame (s : DocumentStore) (id : String)
    (u : List (String × GoValue)) (d : Document)
    (h : lookupKey s.documents id = some d) :
    (lookupVal u "name" = none →
        ((s.PartialUpdate id u).1.Get id).1.Name = d.Name)
    ∧ (lookupVal u "description" = none →
        ((s.PartialUpdate id u).1.Get id).1.Description = d.Description)
    ∧ ((s.PartialUpdate id u).1.Get id).1.ID = d.ID
    ∧ (u = [] → (s.PartialUpdate id u).1 = s)
    ∧ (∀ k, id ≠ k →
        lookupKey (s.PartialUpdate id u).1.documents k =
          lookupKey s.documents k) := by
  have hpu : s.PartialUpdate id u =
      (⟨setKey s.documents id (applyUpdates d u)⟩, none) := by
    simp [DocumentStore.PartialUpdate, h]
  obtain ⟨h1, h2, h3⟩ := applyUpdates_fields d u
  refine ⟨?_, ?_, ?_, ?_, ?_⟩
  · intro hn
    rw [hpu]
    simp [DocumentStore.Get, lookupKey_setKey, h2, hn]
  · intro hd
    rw [hpu]
    simp [DocumentStore.Get, lookupKey_setKey, h3, hd]
  · rw [hpu]
    simp [DocumentStore.Get, lookupKey_setKey, h1]
  · intro hu
    subst hu
    rw [hpu]
    have hid : applyUpdates d [] = d := rfl
    simp [hid, setKey_self s.documents id d h]
  · intro k hk
    rw [hpu]
    simp [lookupKey_setKey, hk]

/-- Witness for `partialUpdate_frame`: a name-only update of `store1`
leaves `Description` and `ID` unchanged, the empty update map leaves the
store unchanged, and key `"2"` is untouched. -/
theorem partialUpdate_frame_witness :
    ((store1.PartialUpdate "1" uName).1.Get "1").1.Description = dA.Description
    ∧ ((store1.PartialUpdate "1" uName).1.Get "1").1.ID = dA.ID
    ∧ (store1.PartialUpdate "1" ([] : List (String × GoValue))).1 = store1
    ∧ lookupKey (store1.PartialUpdate "1" uName).1.documents "2" =
        lookupKey store1.documents "2" :=
  ⟨(partialUpdate_frame store1 "1" uName dA rfl).2.1 rfl,
   (partialUpdate_frame store1 "1" uName dA rfl).2.2.1,
   (partialUpdate_frame store1 "1" [] dA rfl).2.2.2.1 rfl,
   (partialUpdate_frame store1 "1" uName dA rfl).2.2.2.2 "2" (by decide)⟩

/-- C10: `Create` does not validate the identifier: a record whose `ID` is
the empty string is accepted whenever the key `""` is absent, stored under
`""`, and returned by `Get("")`. -/
theorem create_empty_id_spec (s : DocumentStore) (r : Document)
    (h : lookupKey s.documents "" = none) (hr : r.ID = "") :
    (s.Create r).2 = none
    ∧ ((s.Create r).1.Get "").1 = r
    ∧ ((s.Create r).1.Get "").2 = none := by
  have h' : lookupKey s.documents r.ID = none := by rw [hr]; exact h
  refine ⟨by simp [DocumentStore.Create, h'], ?_, ?_⟩ <;>
    simp [DocumentStore.Create, h, h', DocumentStore.Get, lookupKey_setKey, hr]

/-- Witness for `create_empty_id_spec`: the empty store accepts
`⟨"", "E", "e"⟩` and `Get ""` returns it. -/
theorem create_empty_id_witness :
    (NewDocumentStore.Create dEmpty).2 = none
    ∧ ((NewDocumentStore.Create dEmpty).1.Get "").1 = dEmpty
    ∧ ((NewDocumentStore.Create dEmpty).1.Get "").2 = none :=
  create_empty_id_spec NewDocumentStore dEmpty rfl rfl

/-- C6: whenever a store operation returns an error, the mapping is exactly
as before the call (no partial effect), and the only errors are the
already-exists error (from `Create` alone) and the not-found error (from
`Get`, `Update`, `PartialUpdate` and `Delete` alone); `List` has no error
at all. -/
theorem error_taxonomy (s : DocumentStore) :
    (∀ r e, (s.Create r).2 = some e →
        (s.Create r).1 = s ∧ e = errAlreadyExists)
    ∧ (∀ id e, (s.Get id).2 = some e → e = errNotFound)
    ∧ (∀ id r e, (s.Update id r).2 = some e →
        (s.Update id r).1 = s ∧ e = errNotFound)
    ∧ (∀ id u e, (s.PartialUpdate id u).2 = some e →
        (s.PartialUpdate id u).1 = s ∧ e = errNotFound)
    ∧ (∀ id e, (s.Delete id).2 = some e →
        (s.Delete id).1 = s ∧ e = errNotFound) := by
  refine ⟨?_, ?_, ?_, ?_, ?_⟩
  · intro r e he
    cases h : lookupKey s.documents r.ID with
    | none =>
      have h1 : (s.Create r).2 = none := by simp [DocumentStore.Create, h]
      rw [h1] at he
      simp at he
    | some d =>
      have h1 : s.Create r = (s, some errAlreadyExists) := by
        simp [DocumentStore.Create, h]
      rw [h1] at he ⊢
      simp at he
      exact ⟨rfl, he.symm⟩
  · intro id e he
    cases h : lookupKey s.documents id with
    | none =>
      have h1 : s.Get id = (⟨"", "", ""⟩, some errNotFound) := by
        simp [DocumentStore.Get, h]
      rw [h1] at he
      simp at he
      exact he.symm
    | some d =>
      have h1 : (s.Get id).2 = none := by simp [DocumentStore.Get, h]
      rw [h1] at he
      simp at he
  · intro id r e he
    cases h : lookupKey s.documents id with
    | none =>
      have h1 : s.Update id r = (s, some errNotFound) := by
        simp [DocumentStore.Update, h]
      rw [h1] at he ⊢
      simp at he
      exact ⟨rfl, he.symm⟩
    | some d =>
      have h1 : (s.Update id r).2 = none := by simp [DocumentStore.Update, h]
      rw [h1] at he
      simp at he
  · intro id u e he
    cases h : lookupKey s.documents id with
    | none =>
      have h1 : s.PartialUpdate id u = (s, some errNotFound) := by
        simp [DocumentStore.PartialUpdate, h]
      rw [h1] at he ⊢
      simp at he
      exact ⟨rfl, he.symm⟩
    | some d =>
      have h1 : (s.PartialUpdate id u).2 = none := by
        simp [DocumentStore.PartialUpdate, h]
      rw [h1] at he
      simp at he
  · intro id e he
    cases h : lookupKey s.documents id with
    | none =>
      have h1 : s.Delete id = (s, some errNotFound) := by
        simp [DocumentStore.Delete, h]
      rw [h1] at he ⊢
      simp at he
      exact ⟨rfl, he.symm⟩
    | some d =>
      have h1 : (s.Delete id).2 = none := by simp [DocumentStore.Delete, h]
      rw [h1] at he
      simp at he

/-- Witness for `error_taxonomy`: the failing `Create dB` and `Delete "9"`
on `store1` leave the store unchanged and return the two documented
errors. -/
theorem error_taxonomy_witness :
    ((store1.Create dB).1 = store1 ∧ errAlreadyExists = errAlreadyExists)
    ∧ ((store1.Delete "9").1 = store1 ∧ errNotFound = errNotFound) :=
  ⟨(error_taxonomy store1).1 dB errAlreadyExists rfl,
   (error_taxonomy store1).2.2.2.2 "9" errNotFound rfl⟩

/-- C8: every service method is exactly the corresponding store operation
on the same input — results and errors pass through unchanged, with no
additional validation or transformation. -/
theorem service_delegation (svc : documentService) (doc : Document)
    (id : String) (u : List (String × GoValue)) :
    svc.CreateDocument doc = svc.store.Create doc
    ∧ svc.GetDocument id = svc.store.Get id
    ∧ svc.ListDocuments = svc.store.ListDocs
    ∧ svc.DeleteDocument id = svc.store.Delete id
    ∧ svc.UpdateDocument id doc = svc.store.Update id doc
    ∧ svc.PartialUpdateDocument id u = svc.store.PartialUpdate id u :=
  ⟨rfl, rfl, rfl, rfl, rfl, rfl⟩

/-! ## Lemmas for the trace invariant -/

theorem WF_applyOp (s : DocumentStore) (op : Op) (h : s.WF) :
    (applyOp s op).WF := by
  cases op with
  | createOp d =>
    cases hl : lookupKey s.documents d.ID with
    | some w => simpa [applyOp, DocumentStore.Create, hl] using h
    | none =>
      simp only [applyOp, DocumentStore.Create, hl]
      exact nodup_keys_setKey s.documents d.ID d h
  | getOp id => exact h
  | updateOp id d =>
    cases hl : lookupKey s.documents id with
    | none => simpa [applyOp, DocumentStore.Update, hl] using h
    | some w =>
      simp only [applyOp, DocumentStore.Update, hl]
      exact nodup_keys_setKey s.documents id _ h
  | partialUpdateOp id u =>
    cases hl : lookupKey s.documents id with
    | none => simpa [applyOp, DocumentStore.PartialUpdate, hl] using h
    | some w =>
      simp only [applyOp, DocumentStore.PartialUpdate, hl]
      exact nodup_keys_setKey s.documents id _ h
  | deleteOp id =>
    cases hl : lookupKey s.documents id with
    | none => simpa [applyOp, DocumentStore.Delete, hl] using h
    | some w =>
      simp only [applyOp, DocumentStore.Delete, hl]
      exact nodup_keys_eraseKey s.documents id h
  | listOp => exact h

theorem length_applyOp (s : DocumentStore) (op : Op) (h : s.WF) :
    (applyOp s op).documents.length + opDeleteSucc s op
      = s.documents.length + opCreateSucc s op := by
  cases op with
  | createOp d =>
    cases hl : lookupKey s.documents d.ID with
    | some w => simp [applyOp, opDeleteSucc, opCreateSucc, DocumentStore.Create, hl]
    | none =>
      simp [applyOp, opDeleteSucc, opCreateSucc, DocumentStore.Create, hl,
        setKey_of_lookup_none s.documents d.ID d hl]
  | getOp id => simp [applyOp, opDeleteSucc, opCreateSucc]
  | updateOp id d =>
    cases hl : lookupKey s.documents id with
    | none => simp [applyOp, opDeleteSucc, opCreateSucc, DocumentStore.Update, hl]
    | some w =>
      simp [applyOp, opDeleteSucc, opCreateSucc, DocumentStore.Update, hl,
        length_setKey_of_lookup_some s.documents id _ w hl]
  | partialUpdateOp id u =>
    cases hl : lookupKey s.documents id with
    | none =>
      simp [applyOp, opDeleteSucc, opCreateSucc, DocumentStore.PartialUpdate, hl]
    | some w =>
      simp [applyOp, opDeleteSucc, opCreateSucc, DocumentStore.PartialUpdate, hl,
        length_setKey_of_lookup_some s.documents id _ w hl]
  | deleteOp id =>
    cases hl : lookupKey s.documents id with
    | none => simp [applyOp, opDeleteSucc, opCreateSucc, DocumentStore.Delete, hl]
    | some w =>
      have hlen := length_eraseKey_of_nodup s.documents id w h hl
      simp [applyOp, opDeleteSucc, opCreateSucc, DocumentStore.Delete, hl]
      omega
  | listOp => simp [applyOp, opDeleteSucc, opCreateSucc]

theorem runOps_length (s : DocumentStore) (ops : List Op) (h : s.WF) :
    (runOps s ops).documents.length + countSuccDeletes s ops
      = s.documents.length + countSuccCreates s ops := by
  induction ops generalizing s with
  | nil => simp [runOps, countSuccDeletes, countSuccCreates]
  | cons op rest ih =>
    have hwf := WF_applyOp s op h
    have hlen := length_applyOp s op h
    have hrec := ih (applyOp s op) hwf
    simp only [runOps, countSuccDeletes, countSuccCreates]
    omega

/-- C7: `List()` never fails (its type carries no error), returns exactly
the records of the mapping — every record bound to a key appears in the
result, and every element of the result is bound to some key — and along
any sequential execution its length equals the starting length plus the
number of successful creates minus the number of successful deletes. -/
theorem list_spec (s : DocumentStore) (h : s.WF) :
    (∀ k d, lookupKey s.documents k = some d → d ∈ s.ListDocs)
    ∧ (∀ d, d ∈ s.ListDocs → ∃ k, lookupKey s.documents k = some d)
    ∧ (∀ ops, (runOps s ops).ListDocs.length + countSuccDeletes s ops
        = s.ListDocs.length + countSuccCreates s ops) := by
  refine ⟨?_, ?_, ?_⟩
  · intro k d hk
    exact mem_values_of_lookup_some s.documents k d hk
  · intro d hd
    exact lookup_some_of_mem_values s.documents h d hd
  · intro ops
    have hlen := runOps_length s ops h
    simpa [DocumentStore.ListDocs] using hlen

/-- Witness for `list_spec`: on `store1`, the stored record appears in the
listing, every listed record is stored, and the trace
`[Create dC, Delete "1", Create dB]` (2 successful creates, 1 successful
delete) ends with a listing of length 1 + 2 − 1 = 2. -/
theorem list_spec_witness :
    dA ∈ store1.ListDocs
    ∧ (∃ k, lookupKey store1.documents k = some dA)
    ∧ (runOps store1 trace1).ListDocs.length + countSuccDeletes store1 trace1
        = store1.ListDocs.length + countSuccCreates store1 trace1 :=
  ⟨(list_spec store1 (by decide)).1 "1" dA rfl,
   (list_spec store1 (by decide)).2.1 dA (by simp [store1, DocumentStore.ListDocs]),
   (list_spec store1 (by decide)).2.2 trace1⟩

/-! ## Lemmas for serialized concurrent creates -/

theorem lookupKey_append_of_none (l1 l2 : List (String × Document))
    (k : String) (h : lookupKey l1 k = none) :
    lookupKey (l1 ++ l2) k = lookupKey l2 k := by
  induction l1 with
  | nil => simp [lookupKey]
  | cons p rest ih =>
    obtain ⟨pk, pv⟩ := p
    by_cases h1 : pk = k
    · simp [lookupKey, h1] at h
    · simp [lookupKey, h1] at h
      simpa [lookupKey, h1] using ih h

theorem mem_listDocs_create (s : DocumentStore) (d x : Document)
    (h : x ∈ s.ListDocs) : x ∈ (s.Create d).1.ListDocs := by
  cases hl : lookupKey s.documents d.ID with
  | some w => simpa [DocumentStore.Create, hl] using h
  | none =>
    simp only [DocumentStore.Create, hl,
      setKey_of_lookup_none s.documents d.ID d hl]
    simp only [DocumentStore.ListDocs, List.map_append, List.mem_append] at h ⊢
    exact Or.inl h

theorem mem_listDocs_runCreates (s : DocumentStore) (ds : List Document)
    (x : Document) (h : x ∈ s.ListDocs) :
    x ∈ (runCreates s ds).1.ListDocs := by
  induction ds generalizing s with
  | nil => simpa [runCreates] using h
  | cons d rest ih =>
    simp only [runCreates]
    exact ih (s.Create d).1 (mem_listDocs_create s d x h)

theorem runCreates_all_fail (s : DocumentStore) (k : String) (w : Document)
    (hk : lookupKey s.documents k = some w) :
    ∀ ds : List Document, (∀ d ∈ ds, d.ID = k) →
      (runCreates s ds).2 = ds.map (fun _ => some errAlreadyExists)
      ∧ (runCreates s ds).1 = s := by
  intro ds
  induction ds with
  | nil => intro _; simp [runCreates]
  | cons d rest ih =>
    intro hall
    have hid : d.ID = k := hall d (by simp)
    have hlook : lookupKey s.documents d.ID = some w := by rw [hid]; exact hk
    have hcr : s.Create d = (s, some errAlreadyExists) := by
      simp [DocumentStore.Create, hlook]
    have hrest := ih (fun x hx => hall x (by simp [hx]))
    simp only [runCreates, hcr]
    simp [hrest.1, hrest.2]

theorem runCreates_fresh (s : DocumentStore) (ds : List Document)
    (hnd : (ds.map Document.ID).Nodup)
    (hfresh : ∀ d ∈ ds, lookupKey s.documents d.ID = none) :
    (∀ e ∈ (runCreates s ds).2, e = none)
    ∧ ∀ d ∈ ds, d ∈ (runCreates s ds).1.ListDocs := by
  induction ds generalizing s with
  | nil => simp [runCreates]
  | cons d rest ih =>
    have hd : lookupKey s.documents d.ID = none := hfresh d (by simp)
    have hcreate : s.Create d = (⟨s.documents ++ [(d.ID, d)]⟩, none) := by
      simp [DocumentStore.Create, hd,
        setKey_of_lookup_none s.documents d.ID d hd]
    simp only [List.map_cons, List.nodup_cons] at hnd
    have hfresh2 : ∀ x ∈ rest,
        lookupKey (s.documents ++ [(d.ID, d)]) x.ID = none := by
      intro x hx
      have h1 : lookupKey s.documents x.ID = none := hfresh x (by simp [hx])
      have h2 : ¬ d.ID = x.ID := fun hc =>
        hnd.1 (hc ▸ List.mem_map.2 ⟨x, hx, rfl⟩)
      rw [lookupKey_append_of_none s.documents _ x.ID h1]
      simp [lookupKey, h2]
    obtain ⟨ihres, ihmem⟩ :=
      ih (⟨s.documents ++ [(d.ID, d)]⟩ : DocumentStore) hnd.2 hfresh2
    refine ⟨?_, ?_⟩
    · intro e he
      simp only [runCreates, hcreate] at he
      simp only [List.mem_cons] at he
      rcases he with he | he
      · exact he
      · exact ihres e he
    · intro x hx
      simp only [List.mem_cons] at hx
      rcases hx with hx | hx
      · subst hx
        simp only [runCreates, hcreate]
        apply mem_listDocs_runCreates
        simp [DocumentStore.ListDocs]
      · simp only [runCreates, hcreate]
        exact ihmem x hx

/-- C9: the exclusive lock serializes any set of concurrent `Create` calls
into some sequential order `ds`; for every such order, if the identifiers
are pairwise distinct and absent from the store, every call succeeds and
every record appears in the final `List()`; if all N calls share one fresh
identifier, exactly one call succeeds and the other N−1 return the
already-exists error. -/
theorem concurrent_creates_serialized (s : DocumentStore)
    (ds : List Document) :
    (((ds.map Document.ID).Nodup ∧ ∀ d ∈ ds, lookupKey s.documents d.ID = none) →
        (∀ e ∈ (runCreates s ds).2, e = none)
        ∧ ∀ d ∈ ds, d ∈ (runCreates s ds).1.ListDocs)
    ∧ (∀ k, (∀ d ∈ ds, d.ID = k) → lookupKey s.documents k = none → ds ≠ [] →
        (runCreates s ds).2.count none = 1
        ∧ (runCreates s ds).2.count (some errAlreadyExists) = ds.length - 1) := by
  refine ⟨fun h => runCreates_fresh s ds h.1 h.2, ?_⟩
  intro k hall hk hne
  cases ds with
  | nil => exact absurd rfl hne
  | cons d rest =>
    have hid : d.ID = k := hall d (by simp)
    have hd : lookupKey s.documents d.ID = none := by rw [hid]; exact hk
    have hcreate : s.Create d = (⟨s.documents ++ [(d.ID, d)]⟩, none) := by
      simp [DocumentStore.Create, hd,
        setKey_of_lookup_none s.documents d.ID d hd]
    have hk2 : lookupKey (s.documents ++ [(d.ID, d)]) k = some d := by
      rw [lookupKey_append_of_none s.documents _ k hk]
      simp [lookupKey, hid]
    have hrest := runCreates_all_fail ⟨s.documents ++ [(d.ID, d)]⟩ k d hk2
      rest (fun x hx => hall x (by simp [hx]))
    simp only [runCreates, hcreate, hrest.1]
    constructor
    · rw [List.count_cons_self]
      have : (List.map (fun _ => some errAlreadyExists) rest).count
          (none : Option String) = 0 := by
        rw [List.count_eq_zero]
        simp
      omega
    · rw [List.count_cons_of_ne (by simp)]
      simp [List.count_eq_length]

/-- Witness for `concurrent_creates_serialized`: serializing the two
distinct-id creates `[dA, dC]` on the empty store yields two successes and
both records listed; serializing the same-id creates `[dA, dB]` yields
exactly one success and one already-exists failure. -/
theorem concurrent_creates_witness :
    (∀ e ∈ (runCreates NewDocumentStore [dA, dC]).2, e = none)
    ∧ dC ∈ (runCreates NewDocumentStore [dA, dC]).1.ListDocs
    ∧ (runCreates NewDocumentStore [dA, dB]).2.count none = 1
    ∧ (runCreates NewDocumentStore [dA, dB]).2.count (some errAlreadyExists) = 1 :=
  ⟨((concurrent_creates_serialized NewDocumentStore [dA, dC]).1
      ⟨by decide, by decide⟩).1,
   ((concurrent_creates_serialized NewDocumentStore [dA, dC]).1
      ⟨by decide, by decide⟩).2 dC (by simp),
   ((concurrent_creates_serialized NewDocumentStore [dA, dB]).2 "1"
      (by decide) rfl (by simp)).1,
   ((concurrent_creates_serialized NewDocumentStore [dA, dB]).2 "1"
      (by decide) rfl (by simp)).2⟩

end Docstore
